import Mathlib

/-!
# Schema storage facade (`pkg/service/schema/storage.go`)

A shallow embedding of the schema persistence facade: `StoreSchema`, `GetSchema`,
`ListSchemas` and `DeleteSchema` over an injected key-value backend, with the JSON
encoding of a record taken as a parameter.  Backend calls are state passing: each
call takes the backend state and returns its Go results together with the next state.
The order in which a `for ... range` visits a Go map is left open by the language and
is a parameter of `ListSchemas`.  `errors.Wrapf` renders its text through `fmt.Sprintf`;
the rendering of a format that comes without operands is embedded as `Sprintf`.
The `context.Context` argument is threaded through unchanged by the source and is
left out; `logrus` calls write to the process log only and are left out.
-/

set_option autoImplicit false

namespace SchemaStorage

/-! ## Data model -/

/-- Byte slices (`[]byte`), as lists of byte values. -/
abbrev Bytes := List Nat

/-- Go `error` values that are non-nil.  `New msg` is what `errors.New(msg)` and
`fmt.Errorf` build, `msg` being the rendered text; `Wrap cause msg` is what
`errors.Wrap(cause, msg)` builds, and what `errors.Wrapf(cause, format)` builds with
`msg` the rendering of `format`.  A nil `error` is `none : Option Error`. -/
inductive Error where
  | New (msg : String)
  | Wrap (cause : Error) (msg : String)
  deriving DecidableEq

/-! ### Rendering a format that has no operands

`errors.Wrapf(err, format)` stores `fmt.Sprintf(format)`.  The functions below follow
`doPrintf` of package `fmt` for an empty operand list: text up to a `%` is copied, and
each verb is parsed (flags, argument index, width, precision, argument index, verb
character) and rendered as `%` for the verb `%`, as `%!v(BADINDEX)` after a bad
argument index, as `%!v(MISSING)` otherwise, with `%!(BADWIDTH)` and `%!(BADPREC)` for
a `*` width or precision and `%!(NOVERB)` when the format ends inside a verb. -/

/-- The flag characters of a verb: `#`, `0`, `+`, `-` and space. -/
def isFlag (c : Char) : Bool :=
  c = '#' || c = '0' || c = '+' || c = '-' || c = ' '

/-- The loop of `parsenum`: read decimal digits; the results are whether a number was
read and the text after it.  A number above 1000000 with a digit still to come gives
"no number" and skips to the end of the text. -/
def parsenumFrom (num : Nat) (isnum : Bool) : List Char → Bool × List Char
  | [] => (isnum, [])
  | c :: rest =>
    if '0' ≤ c ∧ c ≤ '9' then
      if num > 1000000 then (false, [])
      else parsenumFrom (num * 10 + (c.toNat - '0'.toNat)) true rest
    else (isnum, c :: rest)

/-- The function `parsenum` of package `fmt`, from the start of `cs`. -/
def parsenum (cs : List Char) : Bool × List Char :=
  parsenumFrom 0 false cs

/-- The function `parseArgNumber` of package `fmt` on a text that starts with `[`:
how many characters the index takes and whether it is well formed (`[` digits `]`). -/
def parseArgNumber (cs : List Char) : Nat × Bool :=
  if cs.length < 3 then (1, false)
  else
    if (cs.tail.takeWhile (fun c => c ≠ ']')).length = cs.tail.length then (1, false)
    else
      ((cs.tail.takeWhile (fun c => c ≠ ']')).length + 2,
       (parsenum (cs.tail.takeWhile (fun c => c ≠ ']'))).1
         && (parsenum (cs.tail.takeWhile (fun c => c ≠ ']'))).2.isEmpty)

/-- The method `argNumber` of package `fmt` with no operands: the text after an
argument index if one starts here, whether a well-formed index was found, and the flag
`goodArgNum`, which any index clears since no operand exists. -/
def argNumber (cs : List Char) (good : Bool) : List Char × Bool × Bool :=
  match cs with
  | [] => ([], false, good)
  | c :: rest =>
    if c = '[' then (cs.drop (parseArgNumber cs).1, (parseArgNumber cs).2, false)
    else (c :: rest, false, good)

/-- The width part of a verb: output, remaining text, `afterIndex`, `goodArgNum`. -/
def widthStep (cs : List Char) (afterIndex good : Bool) :
    List Char × List Char × Bool × Bool :=
  match cs with
  | [] => ([], [], afterIndex, good)
  | c :: rest =>
    if c = '*' then ("%!(BADWIDTH)".toList, rest, false, good)
    else ([], (parsenum cs).2, afterIndex, good && !(afterIndex && (parsenum cs).1))

/-- The precision part of a verb: output, remaining text, `afterIndex`, `goodArgNum`. -/
def precStep (cs : List Char) (afterIndex good : Bool) :
    List Char × List Char × Bool × Bool :=
  match cs with
  | [] => ([], [], afterIndex, good)
  | c :: rest =>
    if c = '.' then
      match argNumber rest (good && !afterIndex) with
      | (cs1, afterIndex1, good1) =>
        match cs1 with
        | [] => ([], [], afterIndex1, good1)
        | c1 :: rest1 =>
          if c1 = '*' then ("%!(BADPREC)".toList, rest1, false, good1)
          else ([], (parsenum cs1).2, afterIndex1, good1)
    else ([], cs, afterIndex, good)

/-- One verb of the format, from the character after its `%`: the output and the text
that remains, or `none` when the format ended inside the verb. -/
def verbStep (cs : List Char) : List Char × Option (List Char) :=
  match argNumber (cs.dropWhile isFlag) true with
  | (cs1, afterIndex1, good1) =>
    match widthStep cs1 afterIndex1 good1 with
    | (out2, cs2, afterIndex2, good2) =>
      match precStep cs2 afterIndex2 good2 with
      | (out3, cs3, afterIndex3, good3) =>
        match (if afterIndex3 then (cs3, afterIndex3, good3) else argNumber cs3 good3) with
        | (cs4, _, good4) =>
          match cs4 with
          | [] => (out2 ++ out3 ++ "%!(NOVERB)".toList, none)
          | verb :: rest =>
            if verb = '%' then (out2 ++ out3 ++ ['%'], some rest)
            else if good4 then
              (out2 ++ out3 ++ "%!".toList ++ [verb] ++ "(MISSING)".toList, some rest)
            else
              (out2 ++ out3 ++ "%!".toList ++ [verb] ++ "(BADINDEX)".toList, some rest)

/-- The loop of `doPrintf` with no operands.  The first argument bounds the number of
characters still to read; the length of the text is enough (`doPrintf_fuel`). -/
def doPrintf : Nat → List Char → List Char
  | 0, _ => []
  | _ + 1, [] => []
  | n + 1, c :: rest =>
    if c = '%' then
      match verbStep rest with
      | (out, none) => out
      | (out, some rest1) => out ++ doPrintf n rest1
    else c :: doPrintf n rest

/-- The call `fmt.Sprintf(format)` with no operands. -/
def Sprintf (format : String) : String :=
  String.mk (doPrintf format.length format.toList)

/-- The call `errors.Wrapf(err, format)` with no operands, on a non-nil `err`. -/
def Wrapf (err : Error) (format : String) : Error :=
  Error.Wrap err (Sprintf format)

/-- The constant `namespace` of the source. -/
def namespace_ : String := "schema"

/-- The type `keyaccess.JWT`, a string type. -/
abbrev JWT := String

/-- The struct `StoredSchema`.  `Doc` stands for `schema.VCJSONSchema`, which the
facade only stores; the pointer field `SchemaJWT` is `none` when nil. -/
structure StoredSchema (Doc : Type) where
  ID : String
  Schema : Doc
  SchemaJWT : Option JWT
  deriving DecidableEq

/-- The two `encoding/json` entry points the facade calls on a `StoredSchema`:
`json.Marshal(schema)` and `json.Unmarshal(bytes, &stored)`. -/
structure Codec (Doc : Type) where
  Marshal : StoredSchema Doc → Except Error Bytes
  Unmarshal : Bytes → Except Error (StoredSchema Doc)

/-- A Go `map[string][]byte`, as the list of its key/value pairs.  The keys of a map
are distinct; nothing below relies on it.  The position of a pair in the list carries
no meaning for the program: a `range` over the map visits the pairs in an order of its
own (`RangeOrder`). -/
abbrev ByteMap := List (String × Bytes)

/-- The order in which one `for ... range` statement visits the entries of a map: some
rearrangement of the entries, which Go leaves unspecified and may choose afresh at
every statement. -/
structure RangeOrder where
  order : ByteMap → ByteMap
  perm : ∀ m, (order m).Perm m

/-- Modelled from the spec: the interface `storage.ServiceStorage` (package
`pkg/storage`), the key-value backend the facade holds in `Storage.db`.  The four
operations of the consumed contract, `write(namespace, key, bytes) -> error`,
`read(namespace, key) -> (bytes, error)`, `readAll(namespace) -> (entries, error)` and
`delete(namespace, key) -> error`, over a backend state `σ`; each returns the Go
results and the state after the call.  `ReadAll` hands the entries of the namespace
over as a `map[string][]byte` from key to value, which `ListSchemas` ranges over. -/
structure ServiceStorage (σ : Type) where
  Write : σ → String → String → Bytes → Option Error × σ
  Read : σ → String → String → (Bytes × Option Error) × σ
  ReadAll : σ → String → (ByteMap × Option Error) × σ
  Delete : σ → String → String → Option Error × σ

/-! ## The facade -/

section Facade

variable {σ Doc : Type}

/-- The method `Storage.StoreSchema`.  `errMsg` is `fmt.Sprintf` of a constant format
with the string operand `id`, the constant text followed by `id`; it is then handed to
`errors.Wrapf` as the format. -/
def StoreSchema (db : ServiceStorage σ) (codec : Codec Doc) (s : σ)
    (schema : StoredSchema Doc) : Option Error × σ :=
  let id := schema.ID
  if id = "" then
    (some (Error.New "could not store schema without an ID"), s)
  else
    match codec.Marshal schema with
    | .error err => (some (Wrapf err ("could not store schema: " ++ id)), s)
    | .ok schemaBytes => db.Write s namespace_ id schemaBytes

/-- The method `Storage.GetSchema`. -/
def GetSchema (db : ServiceStorage σ) (codec : Codec Doc) (s : σ) (id : String) :
    (Option (StoredSchema Doc) × Option Error) × σ :=
  match db.Read s namespace_ id with
  | ((_, some err), s1) => ((none, some (Wrapf err ("could not get schema: " ++ id))), s1)
  | ((schemaBytes, none), s1) =>
    if schemaBytes.length = 0 then
      ((none, some (Error.New ("schema not found with id: " ++ id))), s1)
    else
      match codec.Unmarshal schemaBytes with
      | .error err =>
        ((none, some (Wrapf err ("could not unmarshal stored schema: " ++ id))), s1)
      | .ok stored => ((some stored, none), s1)

/-- The loop body of `ListSchemas`: decode one blob and append it on success. -/
def listStep (codec : Codec Doc) (stored : List (StoredSchema Doc)) (schemaBytes : Bytes) :
    List (StoredSchema Doc) :=
  match codec.Unmarshal schemaBytes with
  | .ok nextSchema => stored ++ [nextSchema]
  | .error _ => stored

/-- The method `Storage.ListSchemas`; a nil slice is the empty list.  The loop ranges
over the map `gotSchemas` in the order `range` gives and uses the values only. -/
def ListSchemas (db : ServiceStorage σ) (codec : Codec Doc) (range : RangeOrder) (s : σ) :
    (List (StoredSchema Doc) × Option Error) × σ :=
  match db.ReadAll s namespace_ with
  | ((_, some err), s1) => (([], some (Error.Wrap err "could not get all schemas")), s1)
  | ((gotSchemas, none), s1) =>
    if gotSchemas.length = 0 then
      (([], none), s1)
    else
      ((((range.order gotSchemas).map Prod.snd).foldl (listStep codec) [], none), s1)

/-- The method `Storage.DeleteSchema`. -/
def DeleteSchema (db : ServiceStorage σ) (s : σ) (id : String) : Option Error × σ :=
  match db.Delete s namespace_ id with
  | (some err, s1) => (some (Wrapf err ("could not delete schema: " ++ id)), s1)
  | (none, s1) => (none, s1)

end Facade

/-! ## Histories of facade calls -/

section History

variable {σ Doc : Type}

/-- A mutating facade call: `StoreSchema(schema)` or `DeleteSchema(id)`. -/
inductive Op (Doc : Type) where
  | Store (schema : StoredSchema Doc)
  | Delete (id : String)

/-- The backend state after one mutating facade call. -/
def step (db : ServiceStorage σ) (codec : Codec Doc) (s : σ) : Op Doc → σ
  | .Store schema => (StoreSchema db codec s schema).2
  | .Delete id => (DeleteSchema db s id).2

/-- The backend state after a sequence of mutating facade calls, first call first. -/
def run (db : ServiceStorage σ) (codec : Codec Doc) (s : σ) (ops : List (Op Doc)) : σ :=
  ops.foldl (step db codec) s

end History

/-! ## Observing backend calls -/

/-- One call on the backend, with its arguments. -/
inductive Call where
  | Write (ns key : String) (value : Bytes)
  | Read (ns key : String)
  | ReadAll (ns : String)
  | Delete (ns key : String)
  deriving DecidableEq

/-- The backend `db` with a journal: every call is forwarded to `db` and appended to
the list of calls made so far. -/
def Traced {σ : Type} (db : ServiceStorage σ) : ServiceStorage (σ × List Call) where
  Write := fun st ns key value =>
    ((db.Write st.1 ns key value).1, ((db.Write st.1 ns key value).2, st.2 ++ [Call.Write ns key value]))
  Read := fun st ns key =>
    ((db.Read st.1 ns key).1, ((db.Read st.1 ns key).2, st.2 ++ [Call.Read ns key]))
  ReadAll := fun st ns =>
    ((db.ReadAll st.1 ns).1, ((db.ReadAll st.1 ns).2, st.2 ++ [Call.ReadAll ns]))
  Delete := fun st ns key =>
    ((db.Delete st.1 ns key).1, ((db.Delete st.1 ns key).2, st.2 ++ [Call.Delete ns key]))

/-! ## The backend contract -/

/-- Modelled from the spec: what the facade relies on from a `storage.ServiceStorage`
backend (package `pkg/storage`).  `entries s ns` lists the live `(key, value)` pairs of
namespace `ns` in state `s`; a key is absent when no pair carries it.  Reading an absent
key yields a zero-length result and no error; a successful delete makes the key absent;
a delete adds no entry; a write adds no entry other than the one written; a scan that
reports no error returns only values of live entries. -/
structure Contract {σ : Type} (db : ServiceStorage σ)
    (entries : σ → String → List (String × Bytes)) : Prop where
  read_absent : ∀ s ns key, (∀ b, (key, b) ∉ entries s ns) → (db.Read s ns key).1 = ([], none)
  delete_absent : ∀ s ns key, (db.Delete s ns key).1 = none →
    ∀ b, (key, b) ∉ entries (db.Delete s ns key).2 ns
  delete_sub : ∀ s ns key ns1 x, x ∈ entries (db.Delete s ns key).2 ns1 → x ∈ entries s ns1
  write_sub : ∀ s ns key value ns1 x, x ∈ entries (db.Write s ns key value).2 ns1 →
    x ∈ entries s ns1 ∨ (ns1 = ns ∧ x = (key, value))
  readAll_sub : ∀ s ns, (db.ReadAll s ns).1.2 = none →
    ∀ x ∈ (db.ReadAll s ns).1.1, ∃ key, (key, x.2) ∈ entries s ns

/-- A backend in which every write under the "schema" namespace succeeds and fully
replaces the value under its key: the read that follows returns exactly the bytes
written, whatever was stored before. -/
def Overwrites {σ : Type} (db : ServiceStorage σ) : Prop :=
  ∀ s key value, (db.Write s namespace_ key value).1 = none
    ∧ (db.Read (db.Write s namespace_ key value).2 namespace_ key).1 = (value, none)

/-- Every live entry of the "schema" namespace whose value decodes carries, in the
decoded record, the ID it is stored under. -/
def KeyedByID {σ Doc : Type} (entries : σ → String → List (String × Bytes))
    (codec : Codec Doc) (s : σ) : Prop :=
  ∀ key b, (key, b) ∈ entries s namespace_ →
    ∀ r, codec.Unmarshal b = .ok r → r.ID = key

/-! ## Concrete backends and a concrete encoding -/

/-- An in-memory backend state: `((namespace, key), value)` pairs in insertion order,
at most one per `(namespace, key)`. -/
abbrev MemState := List ((String × String) × Bytes)

/-- Drop the pair stored under `(ns, key)`, if any. -/
def MemState.erase (s : MemState) (ns key : String) : MemState :=
  s.filter (fun e => decide (e.1 ≠ (ns, key)))

/-- The live `(key, value)` pairs of namespace `ns`, in insertion order. -/
def MemState.entries (s : MemState) (ns : String) : List (String × Bytes) :=
  (s.filter (fun e => decide (e.1.1 = ns))).map (fun e => (e.1.2, e.2))

/-- The value under `(ns, key)`; the zero-length slice when the key is absent. -/
def MemState.get (s : MemState) (ns key : String) : Bytes :=
  match s.find? (fun e => decide (e.1 = (ns, key))) with
  | some e => e.2
  | none => []

/-- An in-memory backend in which no call fails: a write replaces the value under the
key, a read of an absent key returns the zero-length slice, a scan returns the entries
of the namespace. -/
def MemStore : ServiceStorage MemState where
  Write := fun s ns key value => (none, s.erase ns key ++ [((ns, key), value)])
  Read := fun s ns key => ((s.get ns key, none), s)
  ReadAll := fun s ns => ((s.entries ns, none), s)
  Delete := fun s ns key => (none, s.erase ns key)

/-- A backend without state in which every call fails with the error `e`. -/
def BrokenStore (e : Error) : ServiceStorage Unit where
  Write := fun _ _ _ _ => (some e, ())
  Read := fun _ _ _ => (([], some e), ())
  ReadAll := fun _ _ => (([], some e), ())
  Delete := fun _ _ _ => (some e, ())

/-- The range that visits a map in the order of its list of pairs. -/
def rangeInOrder : RangeOrder where
  order := fun m => m
  perm := fun m => List.Perm.refl m

/-- The range that starts `n` entries further on and wraps around. -/
def rangeRotated (n : Nat) : RangeOrder where
  order := fun m => m.rotate n
  perm := fun m => List.rotate_perm m n

/-- A string as bytes: its length, then its characters. -/
def encodeString (s : String) : Bytes :=
  s.length :: s.toList.map Char.toNat

/-- A small binary encoding of records whose document is a number: the ID, the
document, then the token when there is one.  Encoding the document `0` fails. -/
def toyMarshal (r : StoredSchema Nat) : Except Error Bytes :=
  if r.Schema = 0 then
    .error (Error.New "unsupported value")
  else
    .ok (encodeString r.ID ++ r.Schema ::
      (match r.SchemaJWT with
       | none => []
       | some t => encodeString t))

/-- The decoder matching `toyMarshal`. -/
def toyUnmarshal (b : Bytes) : Except Error (StoredSchema Nat) :=
  match b with
  | [] => .error (Error.New "unexpected end of input")
  | n :: rest =>
    match rest.drop n with
    | [] => .error (Error.New "unexpected end of input")
    | d :: tail =>
      if rest.length < n ∨ d = 0 then
        .error (Error.New "invalid document")
      else
        match tail with
        | [] => .ok { ID := String.mk ((rest.take n).map Char.ofNat), Schema := d, SchemaJWT := none }
        | m :: cs =>
          if cs.length = m then
            .ok { ID := String.mk ((rest.take n).map Char.ofNat), Schema := d,
                  SchemaJWT := some (String.mk (cs.map Char.ofNat)) }
          else
            .error (Error.New "invalid token")

/-- The encoding `toyMarshal` / `toyUnmarshal` as a codec. -/
def toyCodec : Codec Nat where
  Marshal := toyMarshal
  Unmarshal := toyUnmarshal

/-! ## Example data -/

/-- A record with a token. -/
def recA : StoredSchema Nat := { ID := "a", Schema := 3, SchemaJWT := some "jwt" }

/-- A record without a token. -/
def recB : StoredSchema Nat := { ID := "b", Schema := 4, SchemaJWT := none }

/-- A record with the ID of `recA`, another document and no token. -/
def recA2 : StoredSchema Nat := { ID := "a", Schema := 5, SchemaJWT := none }

/-- A record whose ID is the empty string. -/
def recNoID : StoredSchema Nat := { ID := "", Schema := 6, SchemaJWT := none }

/-- An in-memory state: `recA` and `recB` encoded under their IDs in the "schema"
namespace, a blob under "schema" that does not decode, and an entry of another
namespace. -/
def exampleState : MemState :=
  [(("schema", "a"), [1, 97, 3, 3, 106, 119, 116]),
   (("did", "k"), [1, 107, 9]),
   (("schema", "bad"), [200]),
   (("schema", "b"), [1, 98, 4])]

/-! ## Rendering of formats -/

/-- Reading a number leaves no more text than there was. -/
theorem parsenumFrom_length (cs : List Char) (num : Nat) (isnum : Bool) :
    (parsenumFrom num isnum cs).2.length ≤ cs.length := by
  induction cs generalizing num isnum with
  | nil => simp [parsenumFrom]
  | cons c rest ih =>
    unfold parsenumFrom
    split
    · split
      · simp
      · exact Nat.le_succ_of_le (ih _ _)
    · simp

/-- Reading an argument index leaves no more text than there was. -/
theorem argNumber_length (cs : List Char) (good : Bool) :
    (argNumber cs good).1.length ≤ cs.length := by
  unfold argNumber
  cases cs with
  | nil => simp
  | cons c rest =>
    simp only
    split
    · simp only [List.length_drop]
      omega
    · simp

/-- Reading a width leaves no more text than there was. -/
theorem widthStep_length (cs : List Char) (afterIndex good : Bool) :
    (widthStep cs afterIndex good).2.1.length ≤ cs.length := by
  unfold widthStep
  cases cs with
  | nil => simp
  | cons c rest =>
    simp only
    split
    · simp
    · exact parsenumFrom_length _ _ _

/-- Reading a precision leaves no more text than there was. -/
theorem precStep_length (cs : List Char) (afterIndex good : Bool) :
    (precStep cs afterIndex good).2.1.length ≤ cs.length := by
  unfold precStep
  cases cs with
  | nil => simp
  | cons c rest =>
    simp only
    split
    · have h := argNumber_length rest (good && !afterIndex)
      rcases hq : argNumber rest (good && !afterIndex) with ⟨cs1, a1, g1⟩
      rw [hq] at h
      simp only at h ⊢
      cases cs1 with
      | nil => simp
      | cons c1 rest1 =>
        simp only
        split
        · simp only [List.length_cons] at h ⊢
          omega
        · have h2 := parsenumFrom_length (c1 :: rest1) 0 false
          simp only [parsenum, List.length_cons] at h h2 ⊢
          omega
    · simp

/-- A verb that does not end the format consumes at least its verb character. -/
theorem verbStep_length (cs out rest : List Char) (h : verbStep cs = (out, some rest)) :
    rest.length < cs.length := by
  unfold verbStep at h
  have h0 : (cs.dropWhile isFlag).length ≤ cs.length :=
    (List.dropWhile_sublist isFlag).length_le
  have h1 := argNumber_length (cs.dropWhile isFlag) true
  rcases hq1 : argNumber (cs.dropWhile isFlag) true with ⟨cs1, a1, g1⟩
  rw [hq1] at h h1
  simp only at h h1
  have h2 := widthStep_length cs1 a1 g1
  rcases hq2 : widthStep cs1 a1 g1 with ⟨out2, cs2, a2, g2⟩
  rw [hq2] at h h2
  simp only at h h2
  have h3 := precStep_length cs2 a2 g2
  rcases hq3 : precStep cs2 a2 g2 with ⟨out3, cs3, a3, g3⟩
  rw [hq3] at h h3
  simp only at h h3
  have h4 : (if a3 = true then (cs3, a3, g3) else argNumber cs3 g3).1.length ≤ cs3.length := by
    split
    · simp
    · exact argNumber_length cs3 g3
  rcases hq4 : (if a3 = true then (cs3, a3, g3) else argNumber cs3 g3) with ⟨cs4, a4, g4⟩
  rw [hq4] at h h4
  simp only at h h4
  cases cs4 with
  | nil => simp at h
  | cons verb rest4 =>
    simp only at h
    have hr : rest = rest4 := by
      split at h
      · exact (Option.some.inj (Prod.mk.inj h).2).symm
      · split at h
        · exact (Option.some.inj (Prod.mk.inj h).2).symm
        · exact (Option.some.inj (Prod.mk.inj h).2).symm
    rw [hr]
    simp only [List.length_cons] at h4
    omega

/-- The bound of `doPrintf` does not matter once it covers the text: the bound never
cuts a rendering short. -/
theorem doPrintf_fuel (n : Nat) (cs : List Char) (m : Nat) (hn : cs.length ≤ n)
    (hm : cs.length ≤ m) : doPrintf n cs = doPrintf m cs := by
  induction n generalizing cs m with
  | zero =>
    have : cs = [] := List.eq_nil_of_length_eq_zero (Nat.le_zero.mp hn)
    subst this
    cases m <;> rfl
  | succ n ih =>
    cases cs with
    | nil => cases m <;> rfl
    | cons c rest =>
      cases m with
      | zero => simp at hm
      | succ m =>
        simp only [List.length_cons, Nat.add_le_add_iff_right] at hn hm
        unfold doPrintf
        split
        · rcases hv : verbStep rest with ⟨out, _ | rest1⟩
          · rfl
          · have hl := verbStep_length rest out rest1 hv
            simp only
            rw [ih rest1 m (by omega) (by omega)]
        · rw [ih rest m hn hm]

/-- A text without `%` is rendered as it is. -/
theorem doPrintf_of_no_percent (n : Nat) (cs : List Char) (hn : cs.length ≤ n)
    (h : '%' ∉ cs) : doPrintf n cs = cs := by
  induction cs generalizing n with
  | nil => cases n <;> rfl
  | cons c rest ih =>
    cases n with
    | zero => simp at hn
    | succ n =>
      simp only [List.length_cons, Nat.add_le_add_iff_right] at hn
      simp only [List.mem_cons, not_or] at h
      unfold doPrintf
      rw [if_neg (fun hc => h.1 hc.symm), ih n hn h.2]

/-- A format without `%` is rendered as it is. -/
theorem Sprintf_of_no_percent (format : String) (h : '%' ∉ format.toList) :
    Sprintf format = format := by
  show String.mk (doPrintf format.toList.length format.toList) = format
  rw [doPrintf_of_no_percent _ _ (Nat.le_refl _) h]
  rfl

/-! ## Unfolding lemmas for the facade -/

section Lemmas

variable {σ Doc : Type}

/-- The decode loop keeps what was accumulated and appends the successful decodes of
the remaining blobs, in order. -/
theorem foldl_listStep (codec : Codec Doc) (blobs : List Bytes)
    (acc : List (StoredSchema Doc)) :
    blobs.foldl (listStep codec) acc
      = acc ++ blobs.filterMap (fun b => (codec.Unmarshal b).toOption) := by
  induction blobs generalizing acc with
  | nil => simp
  | cons b rest ih =>
    rw [List.foldl_cons, ih]
    cases hb : codec.Unmarshal b with
    | error e => simp [listStep, hb, Except.toOption]
    | ok r => simp [listStep, hb, Except.toOption]

/-- The result of `ListSchemas` in terms of the result of the scan and the order of the
range. -/
theorem ListSchemas_unfold (db : ServiceStorage σ) (codec : Codec Doc) (range : RangeOrder)
    (s : σ) :
    ListSchemas db codec range s
      = match (db.ReadAll s namespace_).1.2 with
        | some err =>
          (([], some (Error.Wrap err "could not get all schemas")), (db.ReadAll s namespace_).2)
        | none =>
          ((((range.order (db.ReadAll s namespace_).1.1).map Prod.snd).filterMap
              (fun b => (codec.Unmarshal b).toOption),
            none), (db.ReadAll s namespace_).2) := by
  unfold ListSchemas
  rcases h : db.ReadAll s namespace_ with ⟨⟨m, err⟩, s1⟩
  cases err with
  | some e => rfl
  | none =>
    cases m with
    | nil =>
      have hnil : range.order [] = [] := List.Perm.eq_nil (range.perm [])
      simp [hnil]
    | cons x rest =>
      have hfold := foldl_listStep codec ((range.order (x :: rest)).map Prod.snd) []
      simp only [List.nil_append] at hfold
      simp [hfold]

/-- The result of `DeleteSchema` in terms of the result of the backend delete. -/
theorem DeleteSchema_unfold (db : ServiceStorage σ) (s : σ) (id : String) :
    DeleteSchema db s id
      = ((db.Delete s namespace_ id).1.map
          (fun err => Wrapf err ("could not delete schema: " ++ id)),
         (db.Delete s namespace_ id).2) := by
  unfold DeleteSchema
  rcases h : db.Delete s namespace_ id with ⟨err, s1⟩
  cases err <;> rfl

/-- With a non-empty ID and a record that encodes, `StoreSchema` returns what the
backend write returns. -/
theorem StoreSchema_of_Marshal_ok (db : ServiceStorage σ) (codec : Codec Doc) (s : σ)
    (R : StoredSchema Doc) (b : Bytes) (hid : R.ID ≠ "") (henc : codec.Marshal R = .ok b) :
    StoreSchema db codec s R = db.Write s namespace_ R.ID b := by
  simp [StoreSchema, hid, henc]

/-- A read that returns non-empty bytes which decode makes `GetSchema` return the
decoded record. -/
theorem GetSchema_of_Unmarshal_ok (db : ServiceStorage σ) (codec : Codec Doc) (s : σ)
    (id : String) (b : Bytes) (R : StoredSchema Doc)
    (hr : (db.Read s namespace_ id).1 = (b, none)) (hne : b ≠ [])
    (hdec : codec.Unmarshal b = .ok R) :
    (GetSchema db codec s id).1 = (some R, none) := by
  unfold GetSchema
  rcases h : db.Read s namespace_ id with ⟨⟨bytes, err⟩, s1⟩
  rw [h] at hr
  obtain ⟨rfl, rfl⟩ := Prod.mk.inj hr
  have hlen : bytes.length ≠ 0 := by simpa using hne
  simp [hlen, hdec]

/-- A read that returns a zero-length result without error makes `GetSchema` fail with
the not-found error, whatever the decoder. -/
theorem GetSchema_of_empty (db : ServiceStorage σ) (codec : Codec Doc) (s : σ)
    (id : String) (hlen : (db.Read s namespace_ id).1.1.length = 0)
    (herr : (db.Read s namespace_ id).1.2 = none) :
    GetSchema db codec s id
      = ((none, some (Error.New ("schema not found with id: " ++ id))),
         (db.Read s namespace_ id).2) := by
  unfold GetSchema
  rcases h : db.Read s namespace_ id with ⟨⟨bytes, err⟩, s1⟩
  rw [h] at hlen herr
  simp only at hlen herr
  subst herr
  simp [hlen]

end Lemmas

/-! ## Listing -/

section Listing

variable {σ Doc : Type}

/-- C1 (amended): whenever the scan of the "schema" namespace returns a map of blobs
without error (empty or not, with any number of malformed blobs), `ListSchemas` returns
no error and exactly the successful decodes of the blobs, each decoded on its own, in
the order in which the range visits the map; that list is a rearrangement of the
successful decodes of the map's values, so it holds each decodable record as often as
the map does and nothing else, whatever the order of the range. -/
theorem ListSchemas_eq_filterMap_visited (db : ServiceStorage σ) (codec : Codec Doc)
    (range : RangeOrder) (s s1 : σ) (m : ByteMap)
    (h : db.ReadAll s namespace_ = ((m, none), s1)) :
    ListSchemas db codec range s
        = ((((range.order m).map Prod.snd).filterMap (fun b => (codec.Unmarshal b).toOption),
            none), s1)
    ∧ (ListSchemas db codec range s).1.1.Perm
        ((m.map Prod.snd).filterMap (fun b => (codec.Unmarshal b).toOption)) := by
  have heq : ListSchemas db codec range s
      = ((((range.order m).map Prod.snd).filterMap (fun b => (codec.Unmarshal b).toOption),
          none), s1) := by
    rw [ListSchemas_unfold, h]
  refine ⟨heq, ?_⟩
  rw [heq]
  exact ((range.perm m).map Prod.snd).filterMap _

/-- C8: `ListSchemas` returns an error exactly when the scan of the "schema" namespace
does; when the scan fails with `e` it returns no records and `e` wrapped with
"could not get all schemas"; when the scan succeeds it returns no error whatever the
decoder does on the entries and whatever the order of the range. -/
theorem ListSchemas_error_iff (db : ServiceStorage σ) (codec : Codec Doc)
    (range : RangeOrder) (s : σ) :
    ((ListSchemas db codec range s).1.2.isSome ↔ (db.ReadAll s namespace_).1.2.isSome)
    ∧ (∀ e, (db.ReadAll s namespace_).1.2 = some e →
        (ListSchemas db codec range s).1
          = ([], some (Error.Wrap e "could not get all schemas")))
    ∧ ((db.ReadAll s namespace_).1.2 = none → (ListSchemas db codec range s).1.2 = none) := by
  rw [ListSchemas_unfold]
  cases h : (db.ReadAll s namespace_).1.2 <;> simp

end Listing

/-! ## Storing and reading back -/

section StoreGet

variable {σ Doc : Type}

/-- C2: for a record `R` with non-empty ID whose encoding `b` is non-empty and decodes
back to `R`, over a backend whose write under ("schema", R.ID) succeeds and whose read
after that write returns the written bytes: `StoreSchema R` succeeds and the following
`GetSchema R.ID` succeeds and returns `R` itself, token included (unset stays unset). -/
theorem StoreSchema_then_GetSchema (db : ServiceStorage σ) (codec : Codec Doc) (s : σ)
    (R : StoredSchema Doc) (b : Bytes) (hid : R.ID ≠ "")
    (henc : codec.Marshal R = .ok b) (hne : b ≠ []) (hdec : codec.Unmarshal b = .ok R)
    (hwrite : (db.Write s namespace_ R.ID b).1 = none)
    (hread : (db.Read (db.Write s namespace_ R.ID b).2 namespace_ R.ID).1 = (b, none)) :
    (StoreSchema db codec s R).1 = none
    ∧ (GetSchema db codec (StoreSchema db codec s R).2 R.ID).1 = (some R, none) := by
  rw [StoreSchema_of_Marshal_ok db codec s R b hid henc]
  exact ⟨hwrite, GetSchema_of_Unmarshal_ok db codec _ R.ID b R hread hne hdec⟩

/-- C6: over a backend whose writes replace the value under the key, for records `A`
and `B` that both carry the non-empty ID `x` (with `B` encoding to non-empty bytes that
decode back to `B`): after `StoreSchema A` then `StoreSchema B`, `GetSchema x` returns
`B`; it does not return `A` when `A` differs from `B`, and the returned token is unset
when `B` has none, whatever token `A` carried. -/
theorem StoreSchema_twice_then_GetSchema (db : ServiceStorage σ) (codec : Codec Doc) (s : σ)
    (x : String) (A B : StoredSchema Doc) (b : Bytes) (hback : Overwrites db)
    (hx : x ≠ "") (_hA : A.ID = x) (hB : B.ID = x)
    (henc : codec.Marshal B = .ok b) (hne : b ≠ []) (hdec : codec.Unmarshal b = .ok B) :
    (StoreSchema db codec (StoreSchema db codec s A).2 B).1 = none
    ∧ (GetSchema db codec (StoreSchema db codec (StoreSchema db codec s A).2 B).2 x).1
        = (some B, none)
    ∧ (A ≠ B →
        (GetSchema db codec (StoreSchema db codec (StoreSchema db codec s A).2 B).2 x).1
          ≠ (some A, none))
    ∧ (B.SchemaJWT = none → ∀ r,
        (GetSchema db codec (StoreSchema db codec (StoreSchema db codec s A).2 B).2 x).1.1
          = some r → r.SchemaJWT = none) := by
  have hidB : B.ID ≠ "" := by rw [hB]; exact hx
  have hstore := StoreSchema_of_Marshal_ok db codec (StoreSchema db codec s A).2 B b hidB henc
  obtain ⟨hw, hr⟩ := hback (StoreSchema db codec s A).2 B.ID b
  have hget : (GetSchema db codec (StoreSchema db codec (StoreSchema db codec s A).2 B).2 x).1
      = (some B, none) := by
    rw [hstore, ← hB]
    exact GetSchema_of_Unmarshal_ok db codec _ B.ID b B hr hne hdec
  refine ⟨by rw [hstore]; exact hw, hget, ?_, ?_⟩
  · intro hAB h
    rw [hget] at h
    exact hAB (Option.some.inj (Prod.mk.inj h).1).symm
  · intro htok r hr1
    rw [hget] at hr1
    rw [← Option.some.inj hr1]
    exact htok

/-- C3: for a record whose ID is the empty string, `StoreSchema` fails with the error
"could not store schema without an ID" and leaves the backend state as it was; over the
journalled backend the journal is unchanged, so no backend call was made; every
`GetSchema` and `ListSchemas` result is the same after the call as before (for
`ListSchemas`, under every order of the range). -/
theorem StoreSchema_empty_ID (db : ServiceStorage σ) (codec : Codec Doc) (s : σ)
    (R : StoredSchema Doc) (hid : R.ID = "") :
    StoreSchema db codec s R
        = (some (Error.New "could not store schema without an ID"), s)
    ∧ (∀ calls : List Call, (StoreSchema (Traced db) codec (s, calls) R).2 = (s, calls))
    ∧ (∀ id, GetSchema db codec (StoreSchema db codec s R).2 id = GetSchema db codec s id)
    ∧ (∀ range, ListSchemas db codec range (StoreSchema db codec s R).2
        = ListSchemas db codec range s) := by
  have h : ∀ {τ : Type} (d : ServiceStorage τ) (t : τ),
      StoreSchema d codec t R = (some (Error.New "could not store schema without an ID"), t) := by
    intro τ d t
    simp [StoreSchema, hid]
  refine ⟨h db s, fun calls => by rw [h], fun id => by rw [h], fun range => by rw [h]⟩

/-- C4: whenever the backend read at ("schema", id) returns a zero-length result and no
error, `GetSchema id` returns no record and the error "schema not found with id: " followed
by the id; the outcome is the same for every decoder, so the empty result is never
decoded, and it is never a success. -/
theorem GetSchema_empty_read (db : ServiceStorage σ) (s : σ) (id : String)
    (hlen : (db.Read s namespace_ id).1.1.length = 0)
    (herr : (db.Read s namespace_ id).1.2 = none) :
    ∀ codec : Codec Doc,
      GetSchema db codec s id
        = ((none, some (Error.New ("schema not found with id: " ++ id))),
           (db.Read s namespace_ id).2)
      ∧ (GetSchema db codec s id).1.2 ≠ none := by
  intro codec
  rw [GetSchema_of_empty db codec s id hlen herr]
  exact ⟨rfl, by simp⟩

end StoreGet

/-! ## Deleting -/

section Deleting

variable {σ : Type}

/-- Over the journalled backend, `DeleteSchema id` appends exactly one call, the delete
at ("schema", id); it returns no error exactly when that backend delete returns none;
and when the backend delete fails with `e` it returns `errors.Wrapf` of `e` with the
format "could not delete schema: " followed by the id, which is that text itself
whenever the id holds no `%`. -/
theorem DeleteSchema_calls_and_result (db : ServiceStorage σ) (s : σ) (calls : List Call)
    (id : String) :
    (DeleteSchema (Traced db) (s, calls) id).2
        = ((db.Delete s namespace_ id).2, calls ++ [Call.Delete namespace_ id])
    ∧ ((DeleteSchema db s id).1 = none ↔ (db.Delete s namespace_ id).1 = none)
    ∧ (DeleteSchema db s id).2 = (db.Delete s namespace_ id).2
    ∧ (∀ e, (db.Delete s namespace_ id).1 = some e →
        (DeleteSchema db s id).1 = some (Wrapf e ("could not delete schema: " ++ id))
        ∧ ('%' ∉ id.toList → (DeleteSchema db s id).1
            = some (Error.Wrap e ("could not delete schema: " ++ id)))) := by
  rw [DeleteSchema_unfold, DeleteSchema_unfold]
  refine ⟨rfl, ?_, rfl, ?_⟩
  · cases (db.Delete s namespace_ id).1 <;> simp
  · intro e he
    refine ⟨by simp [he], fun hid => ?_⟩
    have hfmt : '%' ∉ ("could not delete schema: " ++ id).toList := by
      rw [String.toList, String.data_append, List.mem_append, not_or]
      exact ⟨by decide, hid⟩
    simp [he, Wrapf, Sprintf_of_no_percent _ hfmt]

end Deleting

/-! ## Absence, deletion and listing over the backend contract -/

section Contracted

variable {σ Doc : Type} {entries : σ → String → List (String × Bytes)}

/-- The state after `StoreSchema` is the state before it, or the state after a backend
write under ("schema", ID) of the encoded record. -/
theorem StoreSchema_state (db : ServiceStorage σ) (codec : Codec Doc) (s : σ)
    (R : StoredSchema Doc) :
    (StoreSchema db codec s R).2 = s
    ∨ ∃ b, codec.Marshal R = .ok b
        ∧ (StoreSchema db codec s R).2 = (db.Write s namespace_ R.ID b).2 := by
  by_cases hid : R.ID = ""
  · left
    simp [StoreSchema, hid]
  · cases henc : codec.Marshal R with
    | error e =>
      left
      simp [StoreSchema, hid, henc]
    | ok b =>
      right
      exact ⟨b, rfl, by rw [StoreSchema_of_Marshal_ok db codec s R b hid henc]⟩

/-- A key that is absent stays absent over a mutating facade call that is not a store
under that key. -/
theorem absent_step (db : ServiceStorage σ) (c : Contract db entries) (codec : Codec Doc) (s : σ)
    (id : String) (op : Op Doc) (habs : ∀ b, (id, b) ∉ entries s namespace_)
    (hop : ∀ R, op = Op.Store R → R.ID ≠ id) :
    ∀ b, (id, b) ∉ entries (step db codec s op) namespace_ := by
  intro b hmem
  cases op with
  | Store R =>
    simp only [step] at hmem
    rcases StoreSchema_state db codec s R with h | ⟨bytes, _, h⟩
    · rw [h] at hmem
      exact habs b hmem
    · rw [h] at hmem
      rcases c.write_sub s namespace_ R.ID bytes namespace_ (id, b) hmem with h1 | ⟨_, h2⟩
      · exact habs b h1
      · exact hop R rfl (Prod.mk.inj h2).1.symm
  | Delete k =>
    simp only [step, DeleteSchema_unfold] at hmem
    exact habs b (c.delete_sub s namespace_ k namespace_ (id, b) hmem)

/-- A key that is absent stays absent over any sequence of mutating facade calls none of
which stores under that key. -/
theorem absent_run (db : ServiceStorage σ) (c : Contract db entries) (codec : Codec Doc)
    (id : String) (ops : List (Op Doc)) (s : σ)
    (habs : ∀ b, (id, b) ∉ entries s namespace_)
    (hops : ∀ R, Op.Store R ∈ ops → R.ID ≠ id) :
    ∀ b, (id, b) ∉ entries (run db codec s ops) namespace_ := by
  induction ops generalizing s with
  | nil => exact habs
  | cons op rest ih =>
    simp only [run, List.foldl_cons]
    apply ih
    · exact absent_step db c codec s id op habs
        (fun R hR => hops R (by rw [hR]; exact List.mem_cons_self _ _))
    · exact fun R hR => hops R (List.mem_cons_of_mem _ hR)

/-- Over the backend contract, `GetSchema` on an absent key fails with the not-found
error. -/
theorem GetSchema_absent (db : ServiceStorage σ) (c : Contract db entries) (codec : Codec Doc)
    (s : σ) (id : String) (habs : ∀ b, (id, b) ∉ entries s namespace_) :
    (GetSchema db codec s id).1
      = (none, some (Error.New ("schema not found with id: " ++ id))) := by
  have h := c.read_absent s namespace_ id habs
  rw [GetSchema_of_empty db codec s id (by rw [h]; rfl) (by rw [h])]

/-- C7: over a backend that satisfies the contract, `GetSchema id` fails with the
not-found error (a) in every state reached, from a state where the key is absent, by
stores and deletes none of which stores under `id`, and (b) after a successful
`StoreSchema R` followed by a successful `DeleteSchema R.ID`. -/
theorem GetSchema_not_found (db : ServiceStorage σ) (c : Contract db entries) (codec : Codec Doc) :
    (∀ (s0 : σ) (id : String) (ops : List (Op Doc)),
        (∀ b, (id, b) ∉ entries s0 namespace_) →
        (∀ R, Op.Store R ∈ ops → R.ID ≠ id) →
        (GetSchema db codec (run db codec s0 ops) id).1
          = (none, some (Error.New ("schema not found with id: " ++ id))))
    ∧ (∀ (s : σ) (R : StoredSchema Doc),
        (StoreSchema db codec s R).1 = none →
        (DeleteSchema db (StoreSchema db codec s R).2 R.ID).1 = none →
        (GetSchema db codec (DeleteSchema db (StoreSchema db codec s R).2 R.ID).2 R.ID).1
          = (none, some (Error.New ("schema not found with id: " ++ R.ID)))) := by
  constructor
  · intro s0 id ops habs hops
    exact GetSchema_absent db c codec _ id (absent_run db c codec id ops s0 habs hops)
  · intro s R _ hdel
    apply GetSchema_absent db c codec
    rw [DeleteSchema_unfold] at hdel ⊢
    have hnone : (db.Delete (StoreSchema db codec s R).2 namespace_ R.ID).1 = none := by
      cases h : (db.Delete (StoreSchema db codec s R).2 namespace_ R.ID).1 with
      | none => rfl
      | some e => simp [h] at hdel
    exact c.delete_absent _ namespace_ R.ID hnone

/-- The invariant `KeyedByID` is kept by every mutating facade call, for an encoding
whose decodable outputs carry the ID of the record encoded. -/
theorem KeyedByID_step (db : ServiceStorage σ) (c : Contract db entries) (codec : Codec Doc)
    (hcodec : ∀ R b r, codec.Marshal R = .ok b → codec.Unmarshal b = .ok r → r.ID = R.ID)
    (s : σ) (op : Op Doc) (hinv : KeyedByID entries codec s) :
    KeyedByID entries codec (step db codec s op) := by
  intro key b hmem r hr
  cases op with
  | Store R =>
    simp only [step] at hmem
    rcases StoreSchema_state db codec s R with h | ⟨bytes, henc, h⟩
    · rw [h] at hmem
      exact hinv key b hmem r hr
    · rw [h] at hmem
      rcases c.write_sub s namespace_ R.ID bytes namespace_ (key, b) hmem with h1 | ⟨_, h2⟩
      · exact hinv key b h1 r hr
      · obtain ⟨hk, hb⟩ := Prod.mk.inj h2
        rw [hk]
        exact hcodec R bytes r henc (by rw [← hb]; exact hr)
  | Delete k =>
    simp only [step, DeleteSchema_unfold] at hmem
    exact hinv key b (c.delete_sub s namespace_ k namespace_ (key, b) hmem) r hr

/-- The invariant `KeyedByID` holds after any sequence of mutating facade calls when it
holds before. -/
theorem KeyedByID_run (db : ServiceStorage σ) (c : Contract db entries) (codec : Codec Doc)
    (hcodec : ∀ R b r, codec.Marshal R = .ok b → codec.Unmarshal b = .ok r → r.ID = R.ID)
    (ops : List (Op Doc)) (s : σ) (hinv : KeyedByID entries codec s) :
    KeyedByID entries codec (run db codec s ops) := by
  induction ops generalizing s with
  | nil => exact hinv
  | cons op rest ih =>
    simp only [run, List.foldl_cons]
    exact ih _ (KeyedByID_step db c codec hcodec s op hinv)

/-- Every record `ListSchemas` returns is the decode of a value of the map of a scan
that reported no error. -/
theorem mem_ListSchemas (db : ServiceStorage σ) (codec : Codec Doc) (range : RangeOrder)
    (s : σ) (r : StoredSchema Doc) (hr : r ∈ (ListSchemas db codec range s).1.1) :
    (db.ReadAll s namespace_).1.2 = none
    ∧ ∃ x ∈ (db.ReadAll s namespace_).1.1, codec.Unmarshal x.2 = .ok r := by
  rw [ListSchemas_unfold] at hr
  cases h : (db.ReadAll s namespace_).1.2 with
  | some e => simp [h] at hr
  | none =>
    simp only [h, List.mem_filterMap, List.mem_map] at hr
    obtain ⟨b, ⟨x, hx, hxb⟩, hdec⟩ := hr
    refine ⟨rfl, x, ((range.perm _).mem_iff).1 hx, ?_⟩
    rw [hxb]
    cases hu : codec.Unmarshal b with
    | error e => simp [hu, Except.toOption] at hdec
    | ok r1 =>
      simp only [hu, Except.toOption, Option.some.injEq] at hdec
      rw [hdec]

/-- C9: over a backend that satisfies the contract and an encoding whose decodable
outputs carry the ID of the record encoded, in every state reached from an empty
"schema" namespace by any sequence of `StoreSchema` and `DeleteSchema` calls: after a
successful `DeleteSchema y`, `ListSchemas` returns no record whose ID is `y`, whatever
the order of the range. -/
theorem ListSchemas_after_DeleteSchema (db : ServiceStorage σ) (c : Contract db entries)
    (codec : Codec Doc)
    (hcodec : ∀ R b r, codec.Marshal R = .ok b → codec.Unmarshal b = .ok r → r.ID = R.ID)
    (s0 : σ) (hempty : entries s0 namespace_ = []) (ops : List (Op Doc)) (y : String)
    (hdel : (DeleteSchema db (run db codec s0 ops) y).1 = none) :
    ∀ (range : RangeOrder),
      ∀ r ∈ (ListSchemas db codec range (DeleteSchema db (run db codec s0 ops) y).2).1.1,
        r.ID ≠ y := by
  intro range r hr hy
  have hinv0 : KeyedByID entries codec s0 := by
    intro key b hmem
    rw [hempty] at hmem
    exact absurd hmem (List.not_mem_nil _)
  have hinv := KeyedByID_step db c codec hcodec _ (Op.Delete y)
    (KeyedByID_run db c codec hcodec ops s0 hinv0)
  simp only [step] at hinv
  obtain ⟨hnone, x, hx, hdec⟩ := mem_ListSchemas db codec range _ r hr
  obtain ⟨key, hkey⟩ := c.readAll_sub _ namespace_ hnone x hx
  have hk : r.ID = key := hinv key x.2 hkey r hdec
  rw [DeleteSchema_unfold] at hdel hkey
  have hdnone : (db.Delete (run db codec s0 ops) namespace_ y).1 = none := by
    cases h : (db.Delete (run db codec s0 ops) namespace_ y).1 with
    | none => rfl
    | some e => simp [h] at hdel
  have hky : key = y := hk.symm.trans hy
  rw [hky] at hkey
  exact c.delete_absent _ namespace_ y hdnone x.2 hkey

end Contracted

/-! ## The in-memory backend and the example encoding -/

/-- A pair is a live entry of a namespace exactly when the state holds it under that
namespace. -/
theorem MemState.mem_entries (s : MemState) (ns : String) (x : String × Bytes) :
    x ∈ s.entries ns ↔ ((ns, x.1), x.2) ∈ s := by
  simp only [MemState.entries, List.mem_map, List.mem_filter, decide_eq_true_eq]
  constructor
  · rintro ⟨⟨⟨n, k⟩, v⟩, ⟨hmem, hns⟩, rfl⟩
    simp only at hns
    subst hns
    exact hmem
  · intro h
    exact ⟨((ns, x.1), x.2), ⟨h, rfl⟩, rfl⟩

/-- Erasing a key keeps exactly the pairs stored under other keys. -/
theorem MemState.mem_erase (s : MemState) (ns key : String) (e : (String × String) × Bytes) :
    e ∈ s.erase ns key ↔ e ∈ s ∧ e.1 ≠ (ns, key) := by
  simp [MemState.erase]

/-- Reading a key under which nothing is stored gives the zero-length slice. -/
theorem MemState.get_absent (s : MemState) (ns key : String)
    (h : ∀ b, ((ns, key), b) ∉ s) : s.get ns key = [] := by
  unfold MemState.get
  cases hf : s.find? (fun e => decide (e.1 = (ns, key))) with
  | none => rfl
  | some e =>
    have h1 := List.find?_some hf
    have h2 := List.mem_of_find?_eq_some hf
    simp only [decide_eq_true_eq] at h1
    exact absurd (by rw [← h1]; exact h2) (h e.2)

/-- Reading a key right after writing it gives the value written. -/
theorem MemState.get_write (s : MemState) (ns key : String) (value : Bytes) :
    MemState.get (s.erase ns key ++ [((ns, key), value)]) ns key = value := by
  unfold MemState.get
  have hnone : (s.erase ns key).find? (fun e => decide (e.1 = (ns, key))) = none := by
    rw [List.find?_eq_none]
    intro e he
    simpa using ((MemState.mem_erase s ns key e).1 he).2
  simp [List.find?_append, hnone]

/-- The in-memory backend satisfies the backend contract, with its own entries. -/
theorem memContract : Contract MemStore MemState.entries where
  read_absent := fun s ns key h => by
    have : s.get ns key = [] :=
      MemState.get_absent s ns key (fun b hb => h b ((MemState.mem_entries s ns (key, b)).2 hb))
    simp [MemStore, this]
  delete_absent := fun s ns key _ b hb => by
    have h1 := (MemState.mem_entries _ ns (key, b)).1 hb
    exact ((MemState.mem_erase s ns key _).1 h1).2 rfl
  delete_sub := fun s ns key ns1 x hx => by
    have h1 := (MemState.mem_entries _ ns1 x).1 hx
    exact (MemState.mem_entries s ns1 x).2 ((MemState.mem_erase s ns key _).1 h1).1
  write_sub := fun s ns key value ns1 x hx => by
    have h1 := (MemState.mem_entries _ ns1 x).1 hx
    simp only [MemStore, List.mem_append, List.mem_singleton] at h1
    rcases h1 with h1 | h1
    · exact Or.inl ((MemState.mem_entries s ns1 x).2 ((MemState.mem_erase s ns key _).1 h1).1)
    · right
      simp only [Prod.mk.injEq] at h1
      exact ⟨h1.1.1, Prod.ext h1.1.2 h1.2⟩
  readAll_sub := fun s ns _ x hx => ⟨x.1, hx⟩

/-- In the in-memory backend every write succeeds and replaces the value under its key. -/
theorem MemStore_Overwrites : Overwrites MemStore := by
  intro s key value
  exact ⟨rfl, by simp [MemStore, MemState.get_write]⟩

/-- Character codes decode back to the string they came from. -/
theorem decodeChars_encode (t : String) :
    String.mk ((t.toList.map Char.toNat).map Char.ofNat) = t := by
  have h : (t.toList.map Char.toNat).map Char.ofNat = t.toList := by
    rw [List.map_map]
    conv_rhs => rw [← List.map_id t.toList]
    apply List.map_congr_left
    intro c _
    simp [Char.ofNat_toNat]
  rw [h]
  rfl

/-- The example decoder undoes the example encoder. -/
theorem toyUnmarshal_toyMarshal (R : StoredSchema Nat) (b : Bytes)
    (h : toyMarshal R = .ok b) : toyUnmarshal b = .ok R := by
  obtain ⟨id, d, tok⟩ := R
  unfold toyMarshal at h
  by_cases hd : d = 0
  · simp [hd] at h
  · simp only [hd, if_false, Except.ok.injEq] at h
    subst h
    have hlen : (id.toList.map Char.toNat).length = id.length := by
      rw [List.length_map]; rfl
    have hdrop : ∀ tail : Bytes,
        (id.toList.map Char.toNat ++ d :: tail).drop id.length = d :: tail := by
      intro tail
      rw [← hlen, List.drop_left]
    have htake : ∀ tail : Bytes,
        (id.toList.map Char.toNat ++ d :: tail).take id.length = id.toList.map Char.toNat := by
      intro tail
      rw [← hlen, List.take_left]
    have hnot : ∀ tail : Bytes,
        ¬ ((id.toList.map Char.toNat ++ d :: tail).length < id.length ∨ d = 0) := by
      intro tail
      simp only [List.length_append, hlen, not_or]
      exact ⟨by omega, hd⟩
    cases tok with
    | none =>
      simp only [encodeString, List.cons_append, toyUnmarshal, hdrop, htake, hnot, if_false,
        decodeChars_encode]
    | some t =>
      have htl : (t.toList.map Char.toNat).length = t.length := by
        rw [List.length_map]; rfl
      simp only [encodeString, List.cons_append, toyUnmarshal, hdrop, htake, hnot, if_false,
        decodeChars_encode, htl, if_true]

/-! ## The claims at concrete inputs -/

/-- C1 as first stated fails at the example state: the scan returns the map with the
entries "a", "bad" and "b"; a range that starts one entry further on lists `recB`
before `recA`, which is not the successful decodes in the order of the scan result,
and two ranges over the same scan result give different listings. -/
theorem ListSchemas_order_not_scan_order :
    MemStore.ReadAll exampleState namespace_
        = (([("a", [1, 97, 3, 3, 106, 119, 116]), ("bad", [200]), ("b", [1, 98, 4])], none),
           exampleState)
    ∧ ListSchemas MemStore toyCodec (rangeRotated 1) exampleState
        = (([recB, recA], none), exampleState)
    ∧ ListSchemas MemStore toyCodec (rangeRotated 1) exampleState
        ≠ ((((MemStore.ReadAll exampleState namespace_).1.1.map Prod.snd).filterMap
              (fun b => (toyCodec.Unmarshal b).toOption), none), exampleState)
    ∧ ListSchemas MemStore toyCodec rangeInOrder exampleState
        ≠ ListSchemas MemStore toyCodec (rangeRotated 1) exampleState := by
  refine ⟨rfl, rfl, ?_, ?_⟩ <;> decide

/-- C1 (amended) at the example state under a range that starts one entry further on:
the malformed blob is skipped, the listing is `recB`, `recA` with no error, a
rearrangement of the successful decodes of the map's values. -/
theorem ListSchemas_eq_filterMap_visited_witness :
    ListSchemas MemStore toyCodec (rangeRotated 1) exampleState
        = (([recB, recA], none), exampleState)
    ∧ (ListSchemas MemStore toyCodec (rangeRotated 1) exampleState).1.1.Perm [recA, recB] :=
  ListSchemas_eq_filterMap_visited MemStore toyCodec (rangeRotated 1) exampleState
    exampleState [("a", [1, 97, 3, 3, 106, 119, 116]), ("bad", [200]), ("b", [1, 98, 4])] rfl

/-- C8 at a scan that fails and at one that succeeds over a malformed blob. -/
theorem ListSchemas_error_iff_witness :
    (ListSchemas (BrokenStore (Error.New "io")) toyCodec rangeInOrder ()).1
        = ([], some (Error.Wrap (Error.New "io") "could not get all schemas"))
    ∧ (ListSchemas MemStore toyCodec (rangeRotated 2) exampleState).1.2 = none :=
  ⟨(ListSchemas_error_iff (BrokenStore (Error.New "io")) toyCodec rangeInOrder ()).2.1
      (Error.New "io") rfl,
   (ListSchemas_error_iff MemStore toyCodec (rangeRotated 2) exampleState).2.2 rfl⟩

/-- C2 at `recB` (no token) on the example state. -/
theorem StoreSchema_then_GetSchema_witness :
    (StoreSchema MemStore toyCodec exampleState recB).1 = none
    ∧ (GetSchema MemStore toyCodec (StoreSchema MemStore toyCodec exampleState recB).2 "b").1
        = (some recB, none) :=
  StoreSchema_then_GetSchema MemStore toyCodec exampleState recB [1, 98, 4]
    (by decide) rfl (by decide) rfl rfl rfl

/-- C6 at `recA` (with a token) overwritten by `recA2` (without one). -/
theorem StoreSchema_twice_then_GetSchema_witness :
    (GetSchema MemStore toyCodec
        (StoreSchema MemStore toyCodec (StoreSchema MemStore toyCodec [] recA).2 recA2).2 "a").1
      = (some recA2, none)
    ∧ (GetSchema MemStore toyCodec
        (StoreSchema MemStore toyCodec (StoreSchema MemStore toyCodec [] recA).2 recA2).2 "a").1
      ≠ (some recA, none) :=
  ⟨(StoreSchema_twice_then_GetSchema MemStore toyCodec [] "a" recA recA2 [1, 97, 5]
      MemStore_Overwrites (by decide) rfl rfl rfl (by decide) rfl).2.1,
   (StoreSchema_twice_then_GetSchema MemStore toyCodec [] "a" recA recA2 [1, 97, 5]
      MemStore_Overwrites (by decide) rfl rfl rfl (by decide) rfl).2.2.1 (by decide)⟩

/-- C3 at `recNoID` on the example state, with an empty journal. -/
theorem StoreSchema_empty_ID_witness :
    StoreSchema MemStore toyCodec exampleState recNoID
        = (some (Error.New "could not store schema without an ID"), exampleState)
    ∧ (StoreSchema (Traced MemStore) toyCodec (exampleState, []) recNoID).2
        = (exampleState, []) :=
  ⟨(StoreSchema_empty_ID MemStore toyCodec exampleState recNoID rfl).1,
   (StoreSchema_empty_ID MemStore toyCodec exampleState recNoID rfl).2.1 []⟩

/-- C4 at an id under which the example state holds nothing. -/
theorem GetSchema_empty_read_witness :
    GetSchema MemStore toyCodec exampleState "zz"
      = ((none, some (Error.New "schema not found with id: zz")), exampleState) :=
  (GetSchema_empty_read MemStore exampleState "zz" rfl rfl toyCodec).1

/-- C10 at the id "%s" over a backend whose delete fails with "io": the error returned
wraps "io" with the text "could not delete schema: %!s(MISSING)", in which the id does
not occur, because the text built with the id is handed to `errors.Wrapf` as a format;
at the id "a" the text is "could not delete schema: a".  The call still issues exactly
one backend delete at ("schema", "%s"). -/
theorem DeleteSchema_wrap_text_loses_id :
    DeleteSchema (BrokenStore (Error.New "io")) () "%s"
        = (some (Error.Wrap (Error.New "io") "could not delete schema: %!s(MISSING)"), ())
    ∧ ¬ ("%s".toList <:+: "could not delete schema: %!s(MISSING)".toList)
    ∧ (DeleteSchema (BrokenStore (Error.New "io")) () "%s").1
        ≠ some (Error.Wrap (Error.New "io") ("could not delete schema: " ++ "%s"))
    ∧ DeleteSchema (BrokenStore (Error.New "io")) () "a"
        = (some (Error.Wrap (Error.New "io") "could not delete schema: a"), ())
    ∧ (DeleteSchema (Traced (BrokenStore (Error.New "io"))) ((), []) "%s").2
        = ((), [Call.Delete "schema" "%s"]) := by
  refine ⟨rfl, ?_, ?_, rfl, rfl⟩ <;> decide

/-- C7 at the in-memory backend: an id never stored, and `recA` stored then deleted. -/
theorem GetSchema_not_found_witness :
    (GetSchema MemStore toyCodec
        (run MemStore toyCodec [] [Op.Store recA, Op.Delete "b", Op.Store recB]) "q").1
      = (none, some (Error.New "schema not found with id: q"))
    ∧ (GetSchema MemStore toyCodec
        (DeleteSchema MemStore (StoreSchema MemStore toyCodec exampleState recA).2 "a").2 "a").1
      = (none, some (Error.New "schema not found with id: a")) :=
  ⟨(GetSchema_not_found MemStore memContract toyCodec).1 []
      "q" [Op.Store recA, Op.Delete "b", Op.Store recB]
      (fun b hb => absurd hb (List.not_mem_nil _))
      (fun R hR => by
        simp at hR
        rcases hR with rfl | rfl <;> decide),
   (GetSchema_not_found MemStore memContract toyCodec).2 exampleState recA rfl rfl⟩

/-- C9 at the in-memory backend: `recA` and `recB` stored, `recA` overwritten, then "a"
deleted; the listing is `[recB]` and holds no record with ID "a". -/
theorem ListSchemas_after_DeleteSchema_witness :
    (ListSchemas MemStore toyCodec rangeInOrder
        (DeleteSchema MemStore
          (run MemStore toyCodec [] [Op.Store recA, Op.Store recB, Op.Store recA2]) "a").2).1
      = ([recB], none)
    ∧ ∀ r ∈ (ListSchemas MemStore toyCodec (rangeRotated 1)
        (DeleteSchema MemStore
          (run MemStore toyCodec [] [Op.Store recA, Op.Store recB, Op.Store recA2]) "a").2).1.1,
      r.ID ≠ "a" :=
  ⟨rfl, ListSchemas_after_DeleteSchema MemStore memContract toyCodec
    (fun R b r henc hdec => by
      have h := toyUnmarshal_toyMarshal R b henc
      have h2 : toyUnmarshal b = .ok r := hdec
      rw [h] at h2
      rw [Except.ok.inj h2])
    [] rfl [Op.Store recA, Op.Store recB, Op.Store recA2] "a" rfl (rangeRotated 1)⟩

/-- C5 at a backend whose write fails with "disk full": `StoreSchema recA` returns that
error itself, not wrapped and without the id, whereas an encoding failure is returned
wrapped with "could not store schema: " and the id, as is a failed delete in
`DeleteSchema`. -/
theorem StoreSchema_write_error_is_bare :
    StoreSchema (BrokenStore (Error.New "disk full")) toyCodec () recA
        = (some (Error.New "disk full"), ())
    ∧ (∀ msg, (StoreSchema (BrokenStore (Error.New "disk full")) toyCodec () recA).1
        ≠ some (Error.Wrap (Error.New "disk full") msg))
    ∧ StoreSchema MemStore toyCodec [] { ID := "a", Schema := 0, SchemaJWT := none }
        = (some (Error.Wrap (Error.New "unsupported value") "could not store schema: a"), [])
    ∧ DeleteSchema (BrokenStore (Error.New "disk full")) () "a"
        = (some (Error.Wrap (Error.New "disk full") "could not delete schema: a"), ()) := by
  refine ⟨rfl, ?_, rfl, rfl⟩
  intro msg h
  have h1 : StoreSchema (BrokenStore (Error.New "disk full")) toyCodec () recA
      = (some (Error.New "disk full"), ()) := rfl
  rw [h1] at h
  exact Error.noConfusion (Option.some.inj h)

end SchemaStorage
